import Mathlib

/-!
Verification of the room-session core in `src/matrix-room.c`: the FIFO
outbound event queue with its single-flight gate and cancellation, the
image upload-then-send pipeline, membership reconciliation, the room-name
heuristic, and the incoming-timeline handler.

External collaborators (libpurple, the JSON transport in matrix-api.c, the
state table and the member table) appear either as explicit parameters or
as trace fields recording the calls made to them.  Machine integers in the
source (glib gint64 timestamps, handle pointers) are modelled as `Nat`.
-/

namespace MatrixRoom

/-- Model of a JSON object restricted to the string members the code reads
and writes, as an association list. -/
abbrev JsonObj := List (String × String)

/-- Model of `json_object_set_string_member`: set a member, replacing any
previous value for the same key. -/
def jsonSet (o : JsonObj) (k v : String) : JsonObj :=
  (k, v) :: o.filter (fun p => p.1 != k)

/-- Model of `matrix_json_object_get_string_member` on a non-NULL object. -/
def jsonGet (o : JsonObj) (k : String) : Option String :=
  (o.find? (fun p => p.1 == k)).map Prod.snd

/-- Model of `matrix_json_object_get_string_member` on a possibly-NULL
object (the matrix-json wrappers return NULL for NULL input). -/
def jsonGetOpt (o : Option JsonObj) (k : String) : Option String :=
  match o with
  | none => none
  | some o => jsonGet o k

/-- Model of `MatrixRoomEvent` (matrix-event.h) restricted to the fields
matrix-room.c uses: event type, transaction id, content object and the
send-hook.  The only hook ever installed is `_send_image_hook`, whose
`SendImageData` carries an imgstore id; that id is recorded on the event
(`hook_data->imgstore_id`). -/
structure Event where
  event_type : String
  txn_id : String
  content : JsonObj
  hook : Bool
  imgId : Nat
deriving DecidableEq, Repr

/-- Kind of transport request in flight: `matrix_api_send` or
`matrix_api_upload_file`. -/
inductive ReqKind
  | send
  | upload
deriving DecidableEq, Repr

/-- Model of the per-conversation data slots of matrix-room.c
(PURPLE_CONV_DATA_EVENT_QUEUE, PURPLE_CONV_DATA_ACTIVE_SEND) together with
the ambient imgstore and ghost trace fields recording every call made to
the external collaborators.  Handles returned by the transport are
numbered by `nextHandle`. -/
structure ConvData where
  /-- PURPLE_CONV_DATA_EVENT_QUEUE: the GList of queued events. -/
  queue : List Event
  /-- PURPLE_CONV_DATA_ACTIVE_SEND: the in-flight handle, or none (NULL). -/
  activeSend : Option Nat
  /-- Next fresh transport handle id. -/
  nextHandle : Nat
  /-- Ambient purple imgstore contents: (id, filename) pairs. -/
  imgStore : List (Nat × String)
  /-- The imgstore id held by the in-flight SendImageData, if any
  (sid->imgstore_id). -/
  sidImg : Option Nat
  /-- Ghost: transport requests issued and not yet called back. -/
  outstanding : List ReqKind
  /-- Trace of matrix_api_send calls: (event_type, txn_id, content). -/
  sentCalls : List (String × String × JsonObj)
  /-- Trace of matrix_api_upload_file calls (imgstore id uploaded). -/
  uploadCalls : List Nat
  /-- Trace of matrix_event_free calls, in order. -/
  freed : List Event
  /-- Ghost: every event ever enqueued, in order. -/
  enqueuedTrace : List Event
  /-- Count of matrix_api_error / matrix_api_bad_response calls (the
  connection-level error surface). -/
  apiErrors : Nat
  /-- Trace of purple_imgstore_unref calls (imgstore id released). -/
  unrefs : List Nat
deriving DecidableEq, Repr

/-- Model of `_send_image_hook` (matrix-room.c:444): look the image up in
the imgstore; if absent, return with no effect; otherwise set the content
body to the filename, upload the image data, and record the upload handle
in the active-send slot.  The hook is always invoked on the queue head, so
the content mutation of `sid->event` is a head replacement. -/
def send_image_hook (s : ConvData) (e : Event) : ConvData :=
  match s.imgStore.find? (fun p => p.1 == e.imgId) with
  | none => s
  | some (_, filename) =>
    let e2 := { e with content := jsonSet e.content "body" filename }
    { s with queue := e2 :: s.queue.tail,
             sidImg := some e.imgId,
             uploadCalls := s.uploadCalls ++ [e.imgId],
             outstanding := s.outstanding ++ [ReqKind.upload],
             activeSend := some s.nextHandle,
             nextHandle := s.nextHandle + 1 }

/-- Model of `_send_queued_event` (matrix-room.c:487): send the next queued
event unless the queue is empty or the connection is shutting down
(`dying` is `pc->wants_to_die`); a head event with a hook passes control
to the hook instead.  The active-send slot is updated either way, except
on the early hook return. -/
def send_queued_event (dying : Bool) (s : ConvData) : ConvData :=
  match s.queue with
  | [] => { s with activeSend := none }
  | e :: _ =>
    if dying then { s with activeSend := none }
    else if e.hook then send_image_hook s e
    else
      { s with sentCalls := s.sentCalls ++ [(e.event_type, e.txn_id, e.content)],
               outstanding := s.outstanding ++ [ReqKind.send],
               activeSend := some s.nextHandle,
               nextHandle := s.nextHandle + 1 }

/-- Model of `_enqueue_event` (matrix-room.c:523): append the event to the
queue and, if no send is active, start dispatch.  The transaction id
(monotonic time plus random salt) comes from the environment and is passed
in as `txn`. -/
def enqueue_event (dying : Bool) (s : ConvData) (event_type : String)
    (event_content : JsonObj) (hook : Bool) (imgId : Nat) (txn : String) :
    ConvData :=
  let e : Event := ⟨event_type, txn, event_content, hook, imgId⟩
  let s1 := { s with queue := s.queue ++ [e],
                     enqueuedTrace := s.enqueuedTrace ++ [e] }
  match s1.activeSend with
  | some _ => s1
  | none => send_queued_event dying s1

/-- Model of `_event_send_complete` (matrix-room.c:300): free the head
event, remove it from the queue, and dispatch the next event.  The C code
dereferences the queue head unconditionally; the empty-queue case is
unreachable in valid traces (see `QueueInv`) and is modelled as leaving
the queue alone. -/
def event_send_complete (dying : Bool) (s : ConvData) : ConvData :=
  let s0 := { s with outstanding := s.outstanding.tail }
  match s0.queue with
  | [] => s0
  | e :: rest =>
    send_queued_event dying { s0 with queue := rest, freed := s0.freed ++ [e] }

/-- Model of `_event_send_error` (matrix-room.c:330): report the error via
matrix_api_error and clear the active-send slot; the message stays
queued. -/
def event_send_error (s : ConvData) : ConvData :=
  { s with outstanding := s.outstanding.tail,
           apiErrors := s.apiErrors + 1,
           activeSend := none }

/-- Model of `_event_send_bad_response` (matrix-room.c:343): report via
matrix_api_bad_response and clear the active-send slot; the message stays
queued. -/
def event_send_bad_response (s : ConvData) : ConvData :=
  { s with outstanding := s.outstanding.tail,
           apiErrors := s.apiErrors + 1,
           activeSend := none }

/-- The singleton list of the in-flight SendImageData imgstore id, used to
record a purple_imgstore_unref call on it. -/
def sidList (s : ConvData) : List Nat :=
  match s.sidImg with
  | some i => [i]
  | none => []

/-- Model of `_image_upload_complete` (matrix-room.c:366): if the response
lacks a content_uri, report a matrix_api_error and release the image
WITHOUT sending (and, matching the C, without clearing the active-send
slot); otherwise write the url into the event content, send the event
(sid->event, which is the queue head), record the new handle in the
active-send slot, and release the image. -/
def image_upload_complete (s : ConvData) (contentUri : Option String) :
    ConvData :=
  let s0 := { s with outstanding := s.outstanding.tail }
  match contentUri with
  | none =>
    { s0 with apiErrors := s0.apiErrors + 1, unrefs := s0.unrefs ++ sidList s0 }
  | some uri =>
    match s0.queue with
    | [] => { s0 with unrefs := s0.unrefs ++ sidList s0 }
    | e :: rest =>
      let e2 := { e with content := jsonSet e.content "url" uri }
      { s0 with queue := e2 :: rest,
                sentCalls := s0.sentCalls ++
                  [(e2.event_type, e2.txn_id, e2.content)],
                outstanding := s0.outstanding ++ [ReqKind.send],
                activeSend := some s0.nextHandle,
                nextHandle := s0.nextHandle + 1,
                unrefs := s0.unrefs ++ sidList s0 }

/-- Model of `_image_upload_bad_response` (matrix-room.c:394): report via
matrix_api_bad_response, release the image, clear the active-send slot. -/
def image_upload_bad_response (s : ConvData) : ConvData :=
  { s with outstanding := s.outstanding.tail,
           apiErrors := s.apiErrors + 1,
           unrefs := s.unrefs ++ sidList s,
           activeSend := none }

/-- Model of `_image_upload_error` (matrix-room.c:406): report via
matrix_api_error, release the image, clear the active-send slot. -/
def image_upload_error (s : ConvData) : ConvData :=
  { s with outstanding := s.outstanding.tail,
           apiErrors := s.apiErrors + 1,
           unrefs := s.unrefs ++ sidList s,
           activeSend := none }

/-- Model of `_cancel_event_send` (matrix-room.c:558).

Modelled from the spec: `matrix_api_cancel` lives in matrix-api.c, which is
not under src/.  Per spec section 6 the transport cancel is guaranteed
synchronous and every request invokes exactly one of its callbacks, so a
cancelled request synchronously invokes its error callback, which clears
the active-send slot; this matches the g_assert at matrix-room.c:569 that
the slot is NULL immediately after `matrix_api_cancel` returns.  If the
slot holds a handle with no request outstanding, the cancel is a no-op on
an already-finished request and the slot is cleared. -/
def cancel_event_send (s : ConvData) : ConvData :=
  match s.activeSend with
  | none => s
  | some _ =>
    match s.outstanding.head? with
    | some ReqKind.send => event_send_error s
    | some ReqKind.upload => image_upload_error s
    | none => { s with activeSend := none }

/-- One externally-triggered step on the queue machinery: a user action
(enqueue, cancel) or a transport callback.  Callback ops are subject to
`validOp`: a callback can only fire for a request that is actually
outstanding.  `dying` is the value of `pc->wants_to_die` when the step
runs. -/
inductive Op where
  | enqueue (dying : Bool) (event_type : String) (content : JsonObj)
      (hook : Bool) (imgId : Nat) (txn : String)
  | sendComplete (dying : Bool)
  | sendError
  | sendBadResponse
  | uploadComplete (uri : Option String)
  | uploadError
  | uploadBadResponse
  | cancel
deriving DecidableEq, Repr

/-- Apply one step to the conversation data. -/
def applyOp (s : ConvData) : Op → ConvData
  | .enqueue d ty c hk i txn => enqueue_event d s ty c hk i txn
  | .sendComplete d => event_send_complete d s
  | .sendError => event_send_error s
  | .sendBadResponse => event_send_bad_response s
  | .uploadComplete uri => image_upload_complete s uri
  | .uploadError => image_upload_error s
  | .uploadBadResponse => image_upload_bad_response s
  | .cancel => cancel_event_send s

/-- Environment validity of a step: a transport callback fires only for a
request of the matching kind that is actually outstanding. -/
def validOp (s : ConvData) : Op → Bool
  | .enqueue .. => true
  | .sendComplete _ | .sendError | .sendBadResponse =>
      decide (s.outstanding.head? = some ReqKind.send)
  | .uploadComplete _ | .uploadError | .uploadBadResponse =>
      decide (s.outstanding.head? = some ReqKind.upload)
  | .cancel => true

/-- Run a sequence of steps. -/
def runOps (s : ConvData) : List Op → ConvData
  | [] => s
  | op :: ops => runOps (applyOp s op) ops

/-- A trace is valid when every step is valid in the state it runs from. -/
def validTrace (s : ConvData) : List Op → Bool
  | [] => true
  | op :: ops => validOp s op && validTrace (applyOp s op) ops

/-- The queue-related initialisation of `matrix_room_create_conversation`
(matrix-room.c:676-677): empty queue, no active send.  `imgStore` is the
ambient imgstore contents. -/
def initConvData (imgStore : List (Nat × String)) : ConvData :=
  { queue := [], activeSend := none, nextHandle := 0, imgStore := imgStore,
    sidImg := none, outstanding := [], sentCalls := [], uploadCalls := [],
    freed := [], enqueuedTrace := [], apiErrors := 0, unrefs := [] }

/-- Model of the room session as a whole: the queue machinery plus the
owned state table and member table, each modelled as an allocated-flag
(the table contents live behind external accessors and do not matter for
the teardown claims). -/
structure RoomState where
  q : ConvData
  stateTable : Bool
  memberTable : Bool
deriving DecidableEq, Repr

/-- Model of `matrix_room_leave_chat` (matrix-room.c:690): cancel any
in-flight send, issue the fire-and-forget leave request (NULL callbacks, no
local effect), then release the state table, the member table, and the
event queue (freeing every queued event), setting each slot to NULL.

Modelled from the spec: `matrix_statetable_destroy` and
`matrix_roommembers_free_table` live in matrix-statetable.c and
matrix-roommembers.c, which are not under src/; per spec section 3
(destroyed on leave) and section 8 (second leave is a no-op, queue and
tables already released), destroying an already-released (NULL) table is a
harmless no-op, so the tables are modelled as allocated-flags that leave
sets to false. -/
def matrix_room_leave_chat (r : RoomState) : RoomState :=
  let q1 := cancel_event_send r.q
  { q := { q1 with queue := [], freed := q1.freed ++ q1.queue },
    stateTable := false,
    memberTable := false }

/-! ## Membership reconciliation (matrix-room.c:747-865) -/

/-- Model of `MatrixRoomMember` (matrix-roommembers.h) restricted to the
fields matrix-room.c uses.  `lastAnnounced` is the opaque-data slot, which
this file uses to remember the displayname last given to libpurple (see
the comment at matrix-room.c:729). -/
structure Member where
  userId : String
  displayname : String
  lastAnnounced : Option String
deriving DecidableEq, Repr

/-- Model of `MatrixRoomMemberTable`: the member records plus the pending
new/renamed/left lists handed out by the destructive poppers, keyed by
user id (the C lists hold pointers to the same member records). -/
structure MemberTable where
  members : List Member
  newMembers : List String
  renamedMembers : List String
  leftMembers : List String
deriving DecidableEq, Repr

/-- Look a member up by user id (`matrix_roommembers_lookup_member`). -/
def tableLookup (ms : List Member) (uid : String) : Option Member :=
  ms.find? (fun m => m.userId == uid)

/-- Set the opaque-data slot of the member with the given user id
(`matrix_roommember_set_opaque_data`). -/
def setLastAnnounced (ms : List Member) (uid : String) (v : Option String) :
    List Member :=
  ms.map (fun m => if m.userId == uid then { m with lastAnnounced := v } else m)

/-- The displayname of a member, by user id (empty when absent; only used
under hypotheses that make the lookup succeed). -/
def dispOf (ms : List Member) (uid : String) : String :=
  match tableLookup ms uid with
  | some m => m.displayname
  | none => ""

/-- The opaque-data slot of a member, by user id. -/
def lastOf (ms : List Member) (uid : String) : Option String :=
  match tableLookup ms uid with
  | some m => m.lastAnnounced
  | none => none

/-- UI-sink calls made during reconciliation. -/
inductive UICall where
  | addUsers (names : List String) (announce : Bool)
  | renameUser (oldName newName : String)
  | removeUser (name : String)
deriving DecidableEq, Repr

/-- Loop body of `_handle_new_members` (matrix-room.c:767-785): for each
new member, g_assert that no last-announced name is set, record the
current displayname as the last-announced name, and prepend it to the
batch list.  A `none` result models a failed g_assert (abort), including
the impossible NULL member pointer. -/
def newMembersLoop (ms : List Member) :
    List String → List String → Option (List Member × List String)
  | [], names => some (ms, names)
  | uid :: rest, names =>
    match tableLookup ms uid with
    | none => none
    | some m =>
      match m.lastAnnounced with
      | some _ => none
      | none =>
          newMembersLoop (setLastAnnounced ms uid (some m.displayname)) rest
            (m.displayname :: names)

/-- Model of `_handle_new_members` (matrix-room.c:758): pop the new-member
list, register the last-announced names, and make a single batched
purple_conv_chat_add_users call (only when there are arrivals), passing
the announce flag through. -/
def handle_new_members (t : MemberTable) (announceArrivals : Bool) :
    Option (MemberTable × List UICall) :=
  match newMembersLoop t.members t.newMembers [] with
  | none => none
  | some (ms, names) =>
    some ({ t with members := ms, newMembers := [] },
      if names = [] then [] else [UICall.addUsers names announceArrivals])

/-- Loop body of `_handle_renamed_members` (matrix-room.c:805-826): for
each renamed member, g_assert a last-announced name is set, emit a UI
rename from it to the current displayname, and update the last-announced
name. -/
def renamedMembersLoop (ms : List Member) :
    List String → List UICall → Option (List Member × List UICall)
  | [], calls => some (ms, calls)
  | uid :: rest, calls =>
    match tableLookup ms uid with
    | none => none
    | some m =>
      match m.lastAnnounced with
      | none => none
      | some cur =>
          renamedMembersLoop (setLastAnnounced ms uid (some m.displayname)) rest
            (calls ++ [UICall.renameUser cur m.displayname])

/-- Model of `_handle_renamed_members` (matrix-room.c:798). -/
def handle_renamed_members (t : MemberTable) :
    Option (MemberTable × List UICall) :=
  match renamedMembersLoop t.members t.renamedMembers [] with
  | none => none
  | some (ms, calls) =>
    some ({ t with members := ms, renamedMembers := [] }, calls)

/-- Loop body of `_handle_left_members` (matrix-room.c:840-855): for each
departed member, g_assert a last-announced name is set, emit a UI removal
of it, and clear the last-announced name. -/
def leftMembersLoop (ms : List Member) :
    List String → List UICall → Option (List Member × List UICall)
  | [], calls => some (ms, calls)
  | uid :: rest, calls =>
    match tableLookup ms uid with
    | none => none
    | some m =>
      match m.lastAnnounced with
      | none => none
      | some cur =>
          leftMembersLoop (setLastAnnounced ms uid none) rest
            (calls ++ [UICall.removeUser cur])

/-- Model of `_handle_left_members` (matrix-room.c:833). -/
def handle_left_members (t : MemberTable) :
    Option (MemberTable × List UICall) :=
  match leftMembersLoop t.members t.leftMembers [] with
  | none => none
  | some (ms, calls) =>
    some ({ t with members := ms, leftMembers := [] }, calls)

/-- Model of `_update_user_list` (matrix-room.c:859): arrivals, then
renames, then departures, in that order, concatenating the UI calls. -/
def update_user_list (t : MemberTable) (announceArrivals : Bool) :
    Option (MemberTable × List UICall) :=
  match handle_new_members t announceArrivals with
  | none => none
  | some (t1, c1) =>
    match handle_renamed_members t1 with
    | none => none
    | some (t2, c2) =>
      match handle_left_members t2 with
      | none => none
      | some (t3, c3) => some (t3, c1 ++ c2 ++ c3)

/-! ## Room naming (matrix-room.c:217-284) -/

/-- Model of `_get_room_name_from_members` (matrix-room.c:217).  The
active-member list (matrix_roommembers_get_active_members with TRUE, i.e.
non-left members in table order) comes from the external member table and
is a parameter; `myUserId` is conn->user_id.  The first list entry whose
user id matches ours is removed (g_list_find_custom + g_list_delete_link),
then: nobody else gives NULL; one other gives their displayname; two
others gives "A and B"; more gives "A and N others" with N the length of
the whole remaining list. -/
def get_room_name_from_members (myUserId : String)
    (activeMembers : List Member) : Option String :=
  let members := activeMembers.eraseP (fun m => m.userId == myUserId)
  match members with
  | [] => none
  | [m1] => some m1.displayname
  | [m1, m2] => some (m1.displayname ++ " and " ++ m2.displayname)
  | m1 :: _ :: _ :: rest =>
      some (m1.displayname ++ " and " ++ toString (rest.length + 3) ++ " others")

/-- Model of `_get_room_name` (matrix-room.c:265).  `aliasFromState` is the
result of matrix_statetable_get_room_alias (external state table) and
`roomId` is conv->name. -/
def get_room_name (aliasFromState : Option String) (myUserId : String)
    (activeMembers : List Member) (roomId : String) : String :=
  match aliasFromState with
  | some res => res
  | none =>
    match get_room_name_from_members myUserId activeMembers with
    | some res => res
    | none => roomId

/-! ## Incoming timeline events (matrix-room.c:575-658) -/

/-- An incoming room event as read by `matrix_room_handle_timeline_event`:
the type and sender string members, origin_server_ts, and the content and
unsigned sub-objects (each possibly absent, which the matrix-json getters
treat as NULL). -/
structure TimelineEvent where
  type : Option String
  sender : Option String
  origin_server_ts : Nat
  content : Option JsonObj
  unsignedObj : Option JsonObj
deriving DecidableEq, Repr

/-- Model of `matrix_room_handle_timeline_event` (matrix-room.c:575),
returning the one UI write it performs via serv_got_chat_in, if any
(`none` means zero UI writes): (sender displayname, message text,
timestamp seconds).  `memberLookup` is matrix_roommembers_lookup_member on
the room member table. -/
def handle_timeline_event (memberLookup : String → Option Member)
    (ev : TimelineEvent) : Option (String × String × Nat) :=
  match ev.type with
  | none => none
  | some event_type =>
    if event_type ≠ "m.room.message" then none
    else
      match jsonGetOpt ev.content "body" with
      | none => none
      | some msg_body =>
        match jsonGetOpt ev.content "msgtype" with
        | none => none
        | some msg_type =>
          match jsonGetOpt ev.unsignedObj "transaction_id" with
          | some _ => none
          | none =>
            let sender_display_name :=
              match ev.sender with
              | some sender_id =>
                match memberLookup sender_id with
                | some m => m.displayname
                | none => "<unknown>"
              | none => "<unknown>"
            let text :=
              if msg_type == "m.emote" then "/me " ++ msg_body else msg_body
            some (sender_display_name, text, ev.origin_server_ts / 1000)

/-! ## Outgoing messages (matrix-room.c:960-1012) -/

/-- Model of `matrix_room_send_message` (matrix-room.c:960) in the case
where purple_markup_find_tag finds no img tag, i.e. the plain-text path of
lines 998-1011: a message starting with "/me " (strncmp on the first four
characters) selects msgtype m.emote and drops the four-character escape;
the content object gets msgtype and body, and an m.room.message event is
enqueued with no hook. -/
def send_message_noimg (dying : Bool) (s : ConvData) (message : String)
    (txn : String) : ConvData :=
  let type_string := if message.take 4 == "/me " then "m.emote" else "m.text"
  let message_to_send :=
    if message.take 4 == "/me " then message.drop 4 else message
  let content := jsonSet (jsonSet [] "msgtype" type_string) "body" message_to_send
  enqueue_event dying s "m.room.message" content false 0 txn

/-! ## Helper lemmas about the queue machinery -/

lemma cancel_activeSend (s : ConvData) :
    (cancel_event_send s).activeSend = none := by
  unfold cancel_event_send
  cases h : s.activeSend with
  | none => exact h
  | some a =>
    cases h2 : s.outstanding.head? with
    | none => rfl
    | some k => cases k <;> rfl

lemma cancel_noop_of_none (s : ConvData) (h : s.activeSend = none) :
    cancel_event_send s = s := by
  unfold cancel_event_send
  rw [h]

lemma sih_enqueuedTrace (s : ConvData) (e : Event) :
    (send_image_hook s e).enqueuedTrace = s.enqueuedTrace := by
  unfold send_image_hook
  cases h : s.imgStore.find? (fun p => p.1 == e.imgId) with
  | none => rfl
  | some p => rfl

lemma sih_freed (s : ConvData) (e : Event) :
    (send_image_hook s e).freed = s.freed := by
  unfold send_image_hook
  cases h : s.imgStore.find? (fun p => p.1 == e.imgId) with
  | none => rfl
  | some p => rfl

lemma sih_unrefs (s : ConvData) (e : Event) :
    (send_image_hook s e).unrefs = s.unrefs := by
  unfold send_image_hook
  cases h : s.imgStore.find? (fun p => p.1 == e.imgId) with
  | none => rfl
  | some p => rfl

lemma sih_queue_txn (s : ConvData) (e : Event) (rest : List Event)
    (hq : s.queue = e :: rest) :
    (send_image_hook s e).queue.map Event.txn_id
      = s.queue.map Event.txn_id := by
  unfold send_image_hook
  cases h : s.imgStore.find? (fun p => p.1 == e.imgId) with
  | none => rfl
  | some p => simp [hq]

lemma sqe_enqueuedTrace (d : Bool) (s : ConvData) :
    (send_queued_event d s).enqueuedTrace = s.enqueuedTrace := by
  unfold send_queued_event
  cases hq : s.queue with
  | nil => rfl
  | cons e rest =>
    by_cases hd : d = true
    · simp [hd]
    · by_cases hh : e.hook = true
      · simp [hd, hh, sih_enqueuedTrace]
      · simp [hd, hh]

lemma sqe_freed (d : Bool) (s : ConvData) :
    (send_queued_event d s).freed = s.freed := by
  unfold send_queued_event
  cases hq : s.queue with
  | nil => rfl
  | cons e rest =>
    by_cases hd : d = true
    · simp [hd]
    · by_cases hh : e.hook = true
      · simp [hd, hh, sih_freed]
      · simp [hd, hh]

lemma sqe_unrefs (d : Bool) (s : ConvData) :
    (send_queued_event d s).unrefs = s.unrefs := by
  unfold send_queued_event
  cases hq : s.queue with
  | nil => rfl
  | cons e rest =>
    by_cases hd : d = true
    · simp [hd]
    · by_cases hh : e.hook = true
      · simp [hd, hh, sih_unrefs]
      · simp [hd, hh]

lemma sqe_queue_txn (d : Bool) (s : ConvData) :
    (send_queued_event d s).queue.map Event.txn_id
      = s.queue.map Event.txn_id := by
  unfold send_queued_event
  cases hq : s.queue with
  | nil => rfl
  | cons e rest =>
    by_cases hd : d = true
    · simp [hd]
    · by_cases hh : e.hook = true
      · simp only [hd, hh, if_false, if_true]
        exact (sih_queue_txn s e rest hq).trans (by rw [hq])
      · simp [hd, hh]

/-- Reachable-state invariant of the queue machinery: at most one
transport request outstanding; an empty active-send slot means no request
outstanding; an outstanding request implies a nonempty queue (the request
is for the queue head); and the FIFO trace identity: freed events followed
by the current queue equals, transaction id by transaction id, the full
enqueue history. -/
def QueueInv (s : ConvData) : Prop :=
  s.outstanding.length ≤ 1 ∧
  (s.activeSend = none → s.outstanding = []) ∧
  (s.outstanding ≠ [] → s.queue ≠ []) ∧
  s.freed.map Event.txn_id ++ s.queue.map Event.txn_id
    = s.enqueuedTrace.map Event.txn_id

lemma singleton_of_head {α : Type} (l : List α) (k : α)
    (h : l.head? = some k) (hl : l.length ≤ 1) : l = [k] := by
  cases l with
  | nil => simp at h
  | cons a t =>
    simp only [List.head?_cons, Option.some.injEq] at h
    subst h
    cases t with
    | nil => rfl
    | cons b t2 => simp at hl

lemma queueInv_init (store : List (Nat × String)) :
    QueueInv (initConvData store) := by
  refine ⟨?_, ?_, ?_, ?_⟩ <;> simp [initConvData]

lemma queueInv_send_queued_event (d : Bool) (s : ConvData)
    (hout : s.outstanding = [])
    (h4 : s.freed.map Event.txn_id ++ s.queue.map Event.txn_id
      = s.enqueuedTrace.map Event.txn_id) :
    QueueInv (send_queued_event d s) := by
  unfold send_queued_event
  cases hq : s.queue with
  | nil =>
    refine ⟨?_, ?_, ?_, ?_⟩ <;> simp [hout, hq, ← h4]
  | cons e rest =>
    by_cases hd : d = true
    · refine ⟨?_, ?_, ?_, ?_⟩ <;> simp [hd, hout, hq, ← h4]
    · by_cases hh : e.hook = true
      · simp only [hd, hh, if_false, if_true]
        unfold send_image_hook
        cases hf : s.imgStore.find? (fun p => p.1 == e.imgId) with
        | none =>
          refine ⟨?_, ?_, ?_, ?_⟩ <;> simp [hout, hq, ← h4]
        | some p =>
          refine ⟨?_, ?_, ?_, ?_⟩ <;> simp [hout, hq, ← h4]
      · simp only [hd, hh, if_false]
        refine ⟨?_, ?_, ?_, ?_⟩ <;> simp [hout, hq, ← h4]

lemma queueInv_enqueue (d : Bool) (s : ConvData) (ty : String) (c : JsonObj)
    (hk : Bool) (i : Nat) (txn : String) (h : QueueInv s) :
    QueueInv (enqueue_event d s ty c hk i txn) := by
  obtain ⟨h1, h2, h3, h4⟩ := h
  unfold enqueue_event
  cases ha : s.activeSend with
  | some a =>
    refine ⟨h1, ?_, ?_, ?_⟩
    · intro h; simp [ha] at h
    · intro _; simp
    · simp [← h4]
  | none =>
    apply queueInv_send_queued_event
    · exact h2 ha
    · simp [← h4]

lemma queueInv_send_complete (d : Bool) (s : ConvData) (h : QueueInv s)
    (hv : s.outstanding.head? = some ReqKind.send) :
    QueueInv (event_send_complete d s) := by
  obtain ⟨h1, h2, h3, h4⟩ := h
  have hout : s.outstanding = [ReqKind.send] := singleton_of_head _ _ hv h1
  have hqne : s.queue ≠ [] := h3 (by simp [hout])
  cases hq : s.queue with
  | nil => exact absurd hq hqne
  | cons e rest =>
    unfold event_send_complete
    simp only [hout, List.tail_cons, hq]
    apply queueInv_send_queued_event
    · rfl
    · simp only [List.map_append, List.map_cons, List.map_nil]
      rw [hq] at h4
      simp only [List.map_cons] at h4
      rw [List.append_assoc]
      simpa using h4

lemma queueInv_send_error (s : ConvData) (h : QueueInv s) :
    QueueInv (event_send_error s) := by
  obtain ⟨h1, h2, h3, h4⟩ := h
  refine ⟨?_, ?_, ?_, ?_⟩
  · simpa [event_send_error] using Nat.le_trans (Nat.pred_le _) h1
  · intro _
    simp only [event_send_error]
    cases ho : s.outstanding with
    | nil => rfl
    | cons k t =>
      have := h1
      rw [ho] at this
      simp at this
      simp [this]
  · intro hne
    apply h3
    intro hemp
    simp [event_send_error, hemp] at hne
  · exact h4

lemma queueInv_send_bad_response (s : ConvData) (h : QueueInv s) :
    QueueInv (event_send_bad_response s) := by
  have : event_send_bad_response s = event_send_error s := rfl
  rw [this]
  exact queueInv_send_error s h

lemma queueInv_upload_error (s : ConvData) (h : QueueInv s) :
    QueueInv (image_upload_error s) := by
  obtain ⟨h1, h2, h3, h4⟩ := h
  refine ⟨?_, ?_, ?_, ?_⟩
  · simpa [image_upload_error] using Nat.le_trans (Nat.pred_le _) h1
  · intro _
    simp only [image_upload_error]
    cases ho : s.outstanding with
    | nil => rfl
    | cons k t =>
      have := h1
      rw [ho] at this
      simp at this
      simp [this]
  · intro hne
    apply h3
    intro hemp
    simp [image_upload_error, hemp] at hne
  · exact h4

lemma queueInv_upload_bad_response (s : ConvData) (h : QueueInv s) :
    QueueInv (image_upload_bad_response s) := by
  have : image_upload_bad_response s = image_upload_error s := rfl
  rw [this]
  exact queueInv_upload_error s h

lemma queueInv_upload_complete (s : ConvData) (uri : Option String)
    (h : QueueInv s) (hv : s.outstanding.head? = some ReqKind.upload) :
    QueueInv (image_upload_complete s uri) := by
  obtain ⟨h1, h2, h3, h4⟩ := h
  have hout : s.outstanding = [ReqKind.upload] := singleton_of_head _ _ hv h1
  have hqne : s.queue ≠ [] := h3 (by simp [hout])
  cases hq : s.queue with
  | nil => exact absurd hq hqne
  | cons e rest =>
    unfold image_upload_complete
    cases uri with
    | none =>
      refine ⟨?_, ?_, ?_, ?_⟩ <;> simp [hout, hq, ← h4]
    | some u =>
      simp only [hout, List.tail_cons, hq]
      refine ⟨?_, ?_, ?_, ?_⟩ <;> simp [hout, hq, ← h4]

lemma queueInv_cancel (s : ConvData) (h : QueueInv s) :
    QueueInv (cancel_event_send s) := by
  unfold cancel_event_send
  cases ha : s.activeSend with
  | none => exact h
  | some a =>
    cases ho : s.outstanding.head? with
    | none =>
      obtain ⟨h1, h2, h3, h4⟩ := h
      have hemp : s.outstanding = [] := by
        cases hc : s.outstanding with
        | nil => rfl
        | cons k t => rw [hc] at ho; simp at ho
      exact ⟨by simp [hemp], fun _ => hemp, fun hne => absurd hemp hne, h4⟩
    | some k =>
      cases k with
      | send => exact queueInv_send_error s h
      | upload => exact queueInv_upload_error s h

lemma queueInv_applyOp (s : ConvData) (op : Op) (h : QueueInv s)
    (hv : validOp s op = true) : QueueInv (applyOp s op) := by
  cases op with
  | enqueue d ty c hk i txn => exact queueInv_enqueue d s ty c hk i txn h
  | sendComplete d =>
    exact queueInv_send_complete d s h (by simpa [validOp] using hv)
  | sendError => exact queueInv_send_error s h
  | sendBadResponse => exact queueInv_send_bad_response s h
  | uploadComplete uri =>
    exact queueInv_upload_complete s uri h (by simpa [validOp] using hv)
  | uploadError => exact queueInv_upload_error s h
  | uploadBadResponse => exact queueInv_upload_bad_response s h
  | cancel => exact queueInv_cancel s h

lemma queueInv_runOps (ops : List Op) : ∀ s : ConvData, QueueInv s →
    validTrace s ops = true → QueueInv (runOps s ops) := by
  induction ops with
  | nil => intro s h _; exact h
  | cons op ops ih =>
    intro s h hv
    rw [validTrace, Bool.and_eq_true] at hv
    exact ih _ (queueInv_applyOp s op h hv.1) hv.2

lemma esc_unrefs (d : Bool) (s : ConvData) :
    (event_send_complete d s).unrefs = s.unrefs := by
  unfold event_send_complete
  cases hq : s.queue with
  | nil => rfl
  | cons e rest => rw [sqe_unrefs]

lemma send_complete_spec (d : Bool) (s : ConvData) (hInv : QueueInv s)
    (hv : s.outstanding.head? = some ReqKind.send) :
    ∃ e : Event, s.queue.head? = some e ∧
      (event_send_complete d s).freed = s.freed ++ [e] ∧
      (event_send_complete d s).queue.map Event.txn_id
        = s.queue.tail.map Event.txn_id ∧
      (∀ e2 t2, s.queue.tail = e2 :: t2 → d = false → e2.hook = false →
        (event_send_complete d s).sentCalls
          = s.sentCalls ++ [(e2.event_type, e2.txn_id, e2.content)]) := by
  obtain ⟨h1, h2, h3, h4⟩ := hInv
  have hout : s.outstanding = [ReqKind.send] := singleton_of_head _ _ hv h1
  have hqne : s.queue ≠ [] := h3 (by simp [hout])
  cases hq : s.queue with
  | nil => exact absurd hq hqne
  | cons e rest =>
    refine ⟨e, rfl, ?_, ?_, ?_⟩
    · unfold event_send_complete
      simp only [hq]
      rw [sqe_freed]
    · unfold event_send_complete
      simp only [hq]
      rw [sqe_queue_txn]
      rfl
    · intro e2 t2 ht hd hh
      simp only [List.tail_cons] at ht
      unfold event_send_complete
      simp only [hq, ht]
      unfold send_queued_event
      simp [hd, hh]

/-- C1: for every valid sequence of enqueue and completion operations on
the event queue, events are dispatched in exactly enqueue (FIFO) order:
the freed (completed) events followed by the remaining queue equal,
transaction id for transaction id, the full enqueue history; moreover on a
successful send completion exactly the head event is removed from the
queue and freed, and dispatch is invoked again, so a remaining non-hook
head event is handed to the transport immediately with no external
driver. -/
theorem C1_fifo_dispatch (store : List (Nat × String)) (ops : List Op)
    (hv : validTrace (initConvData store) ops = true) :
    ((runOps (initConvData store) ops).freed.map Event.txn_id ++
        (runOps (initConvData store) ops).queue.map Event.txn_id
      = (runOps (initConvData store) ops).enqueuedTrace.map Event.txn_id) ∧
    (∀ d : Bool,
      validOp (runOps (initConvData store) ops) (Op.sendComplete d) = true →
      ∃ e : Event,
        (runOps (initConvData store) ops).queue.head? = some e ∧
        (applyOp (runOps (initConvData store) ops) (Op.sendComplete d)).freed
          = (runOps (initConvData store) ops).freed ++ [e] ∧
        (applyOp (runOps (initConvData store) ops)
            (Op.sendComplete d)).queue.map Event.txn_id
          = (runOps (initConvData store) ops).queue.tail.map Event.txn_id ∧
        (∀ e2 t2,
          (runOps (initConvData store) ops).queue.tail = e2 :: t2 →
          d = false → e2.hook = false →
          (applyOp (runOps (initConvData store) ops)
              (Op.sendComplete d)).sentCalls
            = (runOps (initConvData store) ops).sentCalls ++
                [(e2.event_type, e2.txn_id, e2.content)])) := by
  have hInv : QueueInv (runOps (initConvData store) ops) :=
    queueInv_runOps ops (initConvData store) (queueInv_init store) hv
  refine ⟨hInv.2.2.2, ?_⟩
  intro d hvd
  have hvd2 : (runOps (initConvData store) ops).outstanding.head?
      = some ReqKind.send := by simpa [validOp] using hvd
  exact send_complete_spec d _ hInv hvd2

/-- Witness for C1 at a concrete trace: two text events enqueued, one
completion; the freed prefix and remaining queue list the transaction ids
in enqueue order. -/
theorem C1_fifo_dispatch_witness :
    validTrace (initConvData [])
        [Op.enqueue false "m.room.message" [("msgtype", "m.text")] false 0 "t1",
         Op.enqueue false "m.room.message" [("msgtype", "m.text")] false 0 "t2",
         Op.sendComplete false] = true ∧
    ((runOps (initConvData [])
        [Op.enqueue false "m.room.message" [("msgtype", "m.text")] false 0 "t1",
         Op.enqueue false "m.room.message" [("msgtype", "m.text")] false 0 "t2",
         Op.sendComplete false]).freed.map Event.txn_id ++
      (runOps (initConvData [])
        [Op.enqueue false "m.room.message" [("msgtype", "m.text")] false 0 "t1",
         Op.enqueue false "m.room.message" [("msgtype", "m.text")] false 0 "t2",
         Op.sendComplete false]).queue.map Event.txn_id
      = (runOps (initConvData [])
        [Op.enqueue false "m.room.message" [("msgtype", "m.text")] false 0 "t1",
         Op.enqueue false "m.room.message" [("msgtype", "m.text")] false 0 "t2",
         Op.sendComplete false]).enqueuedTrace.map Event.txn_id) :=
  ⟨by decide,
   (C1_fifo_dispatch []
      [Op.enqueue false "m.room.message" [("msgtype", "m.text")] false 0 "t1",
       Op.enqueue false "m.room.message" [("msgtype", "m.text")] false 0 "t2",
       Op.sendComplete false] (by decide)).1⟩

/-- C2: in every reachable state at most one transport request (send or
upload) is outstanding; enqueue while a send is active only appends (it
issues no transport call and leaves the active-send slot untouched); and a
single dispatch issues at most one transport request, recording its
handle in the active-send slot when it does. -/
theorem C2_single_flight (store : List (Nat × String)) (ops : List Op)
    (hv : validTrace (initConvData store) ops = true) :
    (runOps (initConvData store) ops).outstanding.length ≤ 1 ∧
    (∀ (s : ConvData) (h : Nat) (d : Bool) (ty : String) (c : JsonObj)
        (hk : Bool) (i : Nat) (txn : String), s.activeSend = some h →
      (enqueue_event d s ty c hk i txn).sentCalls = s.sentCalls ∧
      (enqueue_event d s ty c hk i txn).uploadCalls = s.uploadCalls ∧
      (enqueue_event d s ty c hk i txn).outstanding = s.outstanding ∧
      (enqueue_event d s ty c hk i txn).activeSend = some h) ∧
    (∀ (s : ConvData) (d : Bool),
      (send_queued_event d s).sentCalls.length +
          (send_queued_event d s).uploadCalls.length
        ≤ s.sentCalls.length + s.uploadCalls.length + 1 ∧
      ((send_queued_event d s).sentCalls.length +
          (send_queued_event d s).uploadCalls.length
        = s.sentCalls.length + s.uploadCalls.length + 1 →
       (send_queued_event d s).activeSend = some s.nextHandle)) := by
  refine ⟨(queueInv_runOps ops (initConvData store)
      (queueInv_init store) hv).1, ?_, ?_⟩
  · intro s h d ty c hk i txn ha
    unfold enqueue_event
    simp [ha]
  · intro s d
    unfold send_queued_event
    cases hq : s.queue with
    | nil =>
      dsimp only
      refine ⟨by omega, ?_⟩
      intro h
      omega
    | cons e rest =>
      dsimp only
      by_cases hd : d = true
      · rw [if_pos hd]
        dsimp only
        refine ⟨by omega, ?_⟩
        intro h
        omega
      · rw [if_neg hd]
        by_cases hh : e.hook = true
        · rw [if_pos hh]
          unfold send_image_hook
          cases hf : s.imgStore.find? (fun p => p.1 == e.imgId) with
          | none =>
            dsimp only
            refine ⟨by omega, ?_⟩
            intro h
            omega
          | some p =>
            obtain ⟨pi, pf⟩ := p
            dsimp only
            refine ⟨?_, fun _ => rfl⟩
            simp only [List.length_append, List.length_cons, List.length_nil]
            omega
        · rw [if_neg hh]
          dsimp only
          refine ⟨?_, fun _ => rfl⟩
          simp only [List.length_append, List.length_cons, List.length_nil]
          omega

/-- Witness for C2 at a concrete trace: image enqueue, text enqueue,
upload completion, two send completions; and the gating conjunct at a
concrete active state. -/
theorem C2_single_flight_witness :
    validTrace (initConvData [(7, "cat.png")])
        [Op.enqueue false "m.room.message" [("msgtype", "m.image")] true 7 "ti",
         Op.enqueue false "m.room.message" [("msgtype", "m.text")] false 0 "t2",
         Op.uploadComplete (some "mxc:u"), Op.sendComplete false,
         Op.sendComplete false] = true ∧
    (runOps (initConvData [(7, "cat.png")])
        [Op.enqueue false "m.room.message" [("msgtype", "m.image")] true 7 "ti",
         Op.enqueue false "m.room.message" [("msgtype", "m.text")] false 0 "t2",
         Op.uploadComplete (some "mxc:u"), Op.sendComplete false,
         Op.sendComplete false]).outstanding.length ≤ 1 :=
  ⟨by decide,
   (C2_single_flight [(7, "cat.png")]
      [Op.enqueue false "m.room.message" [("msgtype", "m.image")] true 7 "ti",
       Op.enqueue false "m.room.message" [("msgtype", "m.text")] false 0 "t2",
       Op.uploadComplete (some "mxc:u"), Op.sendComplete false,
       Op.sendComplete false] (by decide)).1⟩

/-- C3: whatever the prior state (an in-flight send present or not), after
the cancel operation returns the active-send slot is null. -/
theorem C3_cancel_postcondition (s : ConvData) :
    (cancel_event_send s).activeSend = none :=
  cancel_activeSend s

/-- C4: on a transport error and on a non-success response during an event
send, the active-send slot is cleared, the error is reported once to the
connection-level error surface, and the queue is left untouched: no event
is removed (the head stays queued, no retry), none is freed, and the
enqueue order is unchanged. -/
theorem C4_send_failure_semantics (s : ConvData) :
    ((event_send_error s).activeSend = none ∧
     (event_send_error s).queue = s.queue ∧
     (event_send_error s).freed = s.freed ∧
     (event_send_error s).enqueuedTrace = s.enqueuedTrace ∧
     (event_send_error s).sentCalls = s.sentCalls ∧
     (event_send_error s).apiErrors = s.apiErrors + 1) ∧
    ((event_send_bad_response s).activeSend = none ∧
     (event_send_bad_response s).queue = s.queue ∧
     (event_send_bad_response s).freed = s.freed ∧
     (event_send_bad_response s).enqueuedTrace = s.enqueuedTrace ∧
     (event_send_bad_response s).sentCalls = s.sentCalls ∧
     (event_send_bad_response s).apiErrors = s.apiErrors + 1) :=
  ⟨⟨rfl, rfl, rfl, rfl, rfl, rfl⟩, ⟨rfl, rfl, rfl, rfl, rfl, rfl⟩⟩

/-- C6: the room-name computation takes the state-table alias when
present; otherwise, over the active members with the first entry matching
the local user removed: zero others gives the room id, one other gives
that displayname, two others gives "A and B", and three or more gives
"A and N others" with N the total count of other members. -/
theorem C6_room_name (aliasFromState : Option String) (my : String)
    (ms : List Member) (roomId : String) :
    (∀ a, aliasFromState = some a →
      get_room_name aliasFromState my ms roomId = a) ∧
    (aliasFromState = none →
      (ms.eraseP (fun m => m.userId == my) = [] →
        get_room_name aliasFromState my ms roomId = roomId) ∧
      (∀ m1, ms.eraseP (fun m => m.userId == my) = [m1] →
        get_room_name aliasFromState my ms roomId = m1.displayname) ∧
      (∀ m1 m2, ms.eraseP (fun m => m.userId == my) = [m1, m2] →
        get_room_name aliasFromState my ms roomId
          = m1.displayname ++ " and " ++ m2.displayname) ∧
      (∀ m1 m2 m3 r3,
        ms.eraseP (fun m => m.userId == my) = m1 :: m2 :: m3 :: r3 →
        get_room_name aliasFromState my ms roomId
          = m1.displayname ++ " and " ++
              toString (ms.eraseP (fun m => m.userId == my)).length
              ++ " others")) := by
  constructor
  · intro a ha
    subst ha
    rfl
  · intro ha
    subst ha
    refine ⟨?_, ?_, ?_, ?_⟩
    · intro h
      unfold get_room_name get_room_name_from_members
      simp only [h]
    · intro m1 h
      unfold get_room_name get_room_name_from_members
      simp only [h]
    · intro m1 m2 h
      unfold get_room_name get_room_name_from_members
      simp only [h]
    · intro m1 m2 m3 r3 h
      unfold get_room_name get_room_name_from_members
      simp only [h, List.length_cons]

/-- Witness for C6: four active others give "Alice and 4 others" (N is the
total other-member count). -/
theorem C6_room_name_witness :
    get_room_name none "@me"
        [⟨"@a", "Alice", none⟩, ⟨"@me", "Me", none⟩, ⟨"@b", "Bob", none⟩,
         ⟨"@c", "Carol", none⟩, ⟨"@d", "Dave", none⟩] "!r"
      = "Alice and 4 others" := by
  have h := (C6_room_name none "@me"
      [⟨"@a", "Alice", none⟩, ⟨"@me", "Me", none⟩, ⟨"@b", "Bob", none⟩,
       ⟨"@c", "Carol", none⟩, ⟨"@d", "Dave", none⟩] "!r").2 rfl
  have h4 := h.2.2.2 ⟨"@a", "Alice", none⟩ ⟨"@b", "Bob", none⟩
      ⟨"@c", "Carol", none⟩ [⟨"@d", "Dave", none⟩] (by decide)
  simpa using h4

/-- C7: in the image pipeline the stored-image reference is released
exactly once on every exit path: upload success followed by send
completion, send error, or send bad-response; upload error; upload
bad-response; and upload success with a missing content_uri, which is
reported as an error and releases the image with no send attempted.  On a
successful upload, exactly the one rewritten event (content url set) is
handed to the transport. -/
theorem C7_image_release_once (s : ConvData) (i : Nat) (e : Event)
    (rest : List Event) (hsid : s.sidImg = some i) (hq : s.queue = e :: rest) :
    (∀ (uri : String) (d : Bool),
      (runOps s [Op.uploadComplete (some uri), Op.sendComplete d]).unrefs
        = s.unrefs ++ [i]) ∧
    (∀ uri : String,
      (runOps s [Op.uploadComplete (some uri), Op.sendError]).unrefs
        = s.unrefs ++ [i]) ∧
    (∀ uri : String,
      (runOps s [Op.uploadComplete (some uri), Op.sendBadResponse]).unrefs
        = s.unrefs ++ [i]) ∧
    ((runOps s [Op.uploadError]).unrefs = s.unrefs ++ [i]) ∧
    ((runOps s [Op.uploadBadResponse]).unrefs = s.unrefs ++ [i]) ∧
    ((runOps s [Op.uploadComplete none]).unrefs = s.unrefs ++ [i] ∧
     (runOps s [Op.uploadComplete none]).sentCalls = s.sentCalls ∧
     (runOps s [Op.uploadComplete none]).apiErrors = s.apiErrors + 1) ∧
    (∀ uri : String,
      (runOps s [Op.uploadComplete (some uri)]).sentCalls
        = s.sentCalls ++ [(e.event_type, e.txn_id, jsonSet e.content "url" uri)]) := by
  have hup : ∀ uri : String, (image_upload_complete s (some uri)).unrefs
      = s.unrefs ++ [i] := by
    intro uri
    unfold image_upload_complete
    simp [hq, sidList, hsid]
  refine ⟨?_, ?_, ?_, ?_, ?_, ⟨?_, ?_, ?_⟩, ?_⟩
  · intro uri d
    show (event_send_complete d (image_upload_complete s (some uri))).unrefs
      = s.unrefs ++ [i]
    rw [esc_unrefs, hup]
  · intro uri
    show (event_send_error (image_upload_complete s (some uri))).unrefs
      = s.unrefs ++ [i]
    exact hup uri
  · intro uri
    show (event_send_bad_response (image_upload_complete s (some uri))).unrefs
      = s.unrefs ++ [i]
    exact hup uri
  · show (image_upload_error s).unrefs = s.unrefs ++ [i]
    unfold image_upload_error
    simp [sidList, hsid]
  · show (image_upload_bad_response s).unrefs = s.unrefs ++ [i]
    unfold image_upload_bad_response
    simp [sidList, hsid]
  · show (image_upload_complete s none).unrefs = s.unrefs ++ [i]
    unfold image_upload_complete
    simp [sidList, hsid]
  · show (image_upload_complete s none).sentCalls = s.sentCalls
    rfl
  · show (image_upload_complete s none).apiErrors = s.apiErrors + 1
    rfl
  · intro uri
    show (image_upload_complete s (some uri)).sentCalls
      = s.sentCalls ++ [(e.event_type, e.txn_id, jsonSet e.content "url" uri)]
    unfold image_upload_complete
    simp [hq]

/-- Witness for C7 at a concrete pipeline state: an in-flight upload for
image 7 whose event is at the head of the queue. -/
theorem C7_image_release_once_witness :
    ((⟨[⟨"m.room.message", "ti", [("msgtype", "m.image")], true, 7⟩],
        some 0, 1, [(7, "cat.png")], some 7, [ReqKind.upload], [], [7], [],
        [⟨"m.room.message", "ti", [("msgtype", "m.image")], true, 7⟩], 0,
        []⟩ : ConvData).sidImg = some 7) ∧
    (runOps (⟨[⟨"m.room.message", "ti", [("msgtype", "m.image")], true, 7⟩],
        some 0, 1, [(7, "cat.png")], some 7, [ReqKind.upload], [], [7], [],
        [⟨"m.room.message", "ti", [("msgtype", "m.image")], true, 7⟩], 0,
        []⟩ : ConvData) [Op.uploadComplete none]).unrefs = [] ++ [7] :=
  ⟨rfl,
   ((C7_image_release_once
      (⟨[⟨"m.room.message", "ti", [("msgtype", "m.image")], true, 7⟩],
        some 0, 1, [(7, "cat.png")], some 7, [ReqKind.upload], [], [7], [],
        [⟨"m.room.message", "ti", [("msgtype", "m.image")], true, 7⟩], 0,
        []⟩ : ConvData) 7
      ⟨"m.room.message", "ti", [("msgtype", "m.image")], true, 7⟩ []
      rfl rfl).2.2.2.2.2.1).1⟩

/-- C8: an incoming timeline event whose unsigned.transaction_id matches
the transaction id of a locally-queued event produces zero UI writes: the
handler returns before any serv_got_chat_in call. -/
theorem C8_echo_suppressed (memberLookup : String → Option Member)
    (ev : TimelineEvent) (s : ConvData) (tid : String)
    (htid : jsonGetOpt ev.unsignedObj "transaction_id" = some tid)
    (_hmatch : tid ∈ s.queue.map Event.txn_id) :
    handle_timeline_event memberLookup ev = none := by
  unfold handle_timeline_event
  cases hty : ev.type with
  | none => rfl
  | some t =>
    by_cases ht : t = "m.room.message"
    · simp only [ht, ne_eq, not_true_eq_false, if_false]
      cases hb : jsonGetOpt ev.content "body" with
      | none => rfl
      | some b =>
        cases hm : jsonGetOpt ev.content "msgtype" with
        | none => rfl
        | some m => simp [htid]
    · simp [ht]

/-- Witness for C8: a concrete echo event with transaction id t1 while t1
is queued. -/
theorem C8_echo_suppressed_witness :
    handle_timeline_event (fun _ => none)
      ⟨some "m.room.message", some "@a", 5000,
       some [("body", "hi"), ("msgtype", "m.text")],
       some [("transaction_id", "t1")]⟩ = none :=
  C8_echo_suppressed (fun _ => none)
    ⟨some "m.room.message", some "@a", 5000,
     some [("body", "hi"), ("msgtype", "m.text")],
     some [("transaction_id", "t1")]⟩
    { initConvData [] with
        queue := [⟨"m.room.message", "t1", [], false, 0⟩] }
    "t1" (by decide) (by decide)

lemma leave_fixed (x : RoomState) (ha : x.q.activeSend = none)
    (hq : x.q.queue = []) :
    matrix_room_leave_chat x
      = { q := x.q, stateTable := false, memberTable := false } := by
  unfold matrix_room_leave_chat
  dsimp only
  rw [cancel_noop_of_none _ ha, hq, List.append_nil]
  congr 1
  rw [← hq]

/-- C9: leaving a room cancels any in-flight send (the active-send slot is
null afterwards) and releases the event queue, the state table and the
member table; a second leave on the same room is a no-op, producing the
identical (already-released) state. -/
theorem C9_leave_twice_safe (r : RoomState) :
    matrix_room_leave_chat (matrix_room_leave_chat r)
      = matrix_room_leave_chat r ∧
    (matrix_room_leave_chat r).q.activeSend = none ∧
    (matrix_room_leave_chat r).q.queue = [] ∧
    (matrix_room_leave_chat r).stateTable = false ∧
    (matrix_room_leave_chat r).memberTable = false := by
  have hact : (matrix_room_leave_chat r).q.activeSend = none := by
    unfold matrix_room_leave_chat
    exact cancel_activeSend r.q
  have hq : (matrix_room_leave_chat r).q.queue = ([] : List Event) := by
    unfold matrix_room_leave_chat
    rfl
  refine ⟨?_, hact, hq, rfl, rfl⟩
  rw [leave_fixed (matrix_room_leave_chat r) hact hq]
  rfl

lemma enqueue_trace (d : Bool) (s : ConvData) (ty : String) (c : JsonObj)
    (hk : Bool) (i : Nat) (txn : String) :
    (enqueue_event d s ty c hk i txn).enqueuedTrace
      = s.enqueuedTrace ++ [⟨ty, txn, c, hk, i⟩] := by
  unfold enqueue_event
  cases ha : s.activeSend with
  | some a => rfl
  | none => rw [sqe_enqueuedTrace]

/-- C10: emote messages round-trip through the "/me " convention.  Sending
a message beginning with "/me " enqueues an m.room.message event whose
content msgtype is m.emote and whose body is the message with the
four-character escape removed; receiving a well-formed m.room.message with
msgtype m.emote and body B (and no echo transaction id) writes the text
"/me " followed by B. -/
theorem C10_emote_roundtrip :
    (∀ (d : Bool) (s : ConvData) (message txn : String),
      message.take 4 = "/me " →
      (send_message_noimg d s message txn).enqueuedTrace
        = s.enqueuedTrace ++
            [⟨"m.room.message", txn,
              jsonSet (jsonSet [] "msgtype" "m.emote") "body" (message.drop 4),
              false, 0⟩] ∧
      jsonGet (jsonSet (jsonSet [] "msgtype" "m.emote") "body"
          (message.drop 4)) "msgtype" = some "m.emote" ∧
      jsonGet (jsonSet (jsonSet [] "msgtype" "m.emote") "body"
          (message.drop 4)) "body" = some (message.drop 4)) ∧
    (∀ (memberLookup : String → Option Member) (ev : TimelineEvent)
        (B : String),
      ev.type = some "m.room.message" →
      jsonGetOpt ev.content "body" = some B →
      jsonGetOpt ev.content "msgtype" = some "m.emote" →
      jsonGetOpt ev.unsignedObj "transaction_id" = none →
      ∃ name, handle_timeline_event memberLookup ev
        = some (name, "/me " ++ B, ev.origin_server_ts / 1000)) := by
  constructor
  · intro d s message txn hme
    have hme2 : (message.take 4 == "/me ") = true := by
      rw [beq_iff_eq]
      exact hme
    refine ⟨?_, ?_, ?_⟩
    · unfold send_message_noimg
      simp only [hme2, if_true]
      exact enqueue_trace d s "m.room.message" _ false 0 txn
    · simp [jsonGet, jsonSet]
    · simp [jsonGet, jsonSet]
  · intro memberLookup ev B hty hb hm htid
    unfold handle_timeline_event
    rw [hty]
    simp only [ne_eq, not_true_eq_false, if_false, hb, hm, htid]
    exact ⟨_, rfl⟩

/-- Witness for C10: sending "/me waves" enqueues an m.emote event with
body "waves"; receiving the corresponding m.emote renders "/me waves". -/
theorem C10_emote_roundtrip_witness :
    ("/me waves".take 4 = "/me " ∧
      (send_message_noimg false (initConvData []) "/me waves" "t9").enqueuedTrace
        = [] ++ [⟨"m.room.message", "t9",
            jsonSet (jsonSet [] "msgtype" "m.emote") "body" ("/me waves".drop 4),
            false, 0⟩]) ∧
    ∃ name, handle_timeline_event (fun _ => none)
        ⟨some "m.room.message", some "@a", 5000,
         some [("body", "waves"), ("msgtype", "m.emote")], none⟩
      = some (name, "/me " ++ "waves", 5000 / 1000) :=
  ⟨⟨by decide,
    (C10_emote_roundtrip.1 false (initConvData []) "/me waves" "t9"
      (by decide)).1⟩,
   C10_emote_roundtrip.2 (fun _ => none)
    ⟨some "m.room.message", some "@a", 5000,
     some [("body", "waves"), ("msgtype", "m.emote")], none⟩
    "waves" rfl (by decide) (by decide) rfl⟩

/-! ## Membership reconciliation lemmas -/

lemma find_userId_map (ms : List Member) (uid2 : String) (f : Member → Member)
    (hf : ∀ m, (f m).userId = m.userId) :
    (ms.map f).find? (fun m => m.userId == uid2)
      = Option.map f (ms.find? (fun m => m.userId == uid2)) := by
  induction ms with
  | nil => rfl
  | cons m t ih =>
    rw [List.map_cons]
    simp only [List.find?]
    rw [hf m]
    cases hm : (m.userId == uid2) with
    | true => rfl
    | false => exact ih

lemma setLast_preserves_userId (uid : String) (v : Option String) :
    ∀ m : Member,
      ((fun m : Member =>
        if m.userId == uid then { m with lastAnnounced := v } else m) m).userId
      = m.userId := by
  intro m
  by_cases h : (m.userId == uid) = true
  · simp [h]
  · simp [h]

lemma lookup_set_self (ms : List Member) (uid : String) (v : Option String) :
    tableLookup (setLastAnnounced ms uid v) uid
      = (tableLookup ms uid).map (fun m => { m with lastAnnounced := v }) := by
  unfold tableLookup setLastAnnounced
  rw [find_userId_map ms uid _ (setLast_preserves_userId uid v)]
  cases hfind : ms.find? (fun m => m.userId == uid) with
  | none => rfl
  | some m0 =>
    have hp : (m0.userId == uid) = true :=
      @List.find?_some Member (fun m => m.userId == uid) m0 ms hfind
    have hpp : m0.userId = uid := by rwa [beq_iff_eq] at hp
    simp [hpp]

lemma lookup_set_other (ms : List Member) (uid uid2 : String)
    (v : Option String) (h : uid2 ≠ uid) :
    tableLookup (setLastAnnounced ms uid v) uid2 = tableLookup ms uid2 := by
  unfold tableLookup setLastAnnounced
  rw [find_userId_map ms uid2 _ (setLast_preserves_userId uid v)]
  cases hfind : ms.find? (fun m => m.userId == uid2) with
  | none => rfl
  | some m0 =>
    have hp : (m0.userId == uid2) = true :=
      @List.find?_some Member (fun m => m.userId == uid2) m0 ms hfind
    have hpp : m0.userId = uid2 := by rwa [beq_iff_eq] at hp
    have hpp2 : ¬ m0.userId = uid := by
      rw [hpp]
      exact h
    simp [hpp2]

lemma dispOf_set_other (ms : List Member) (uid uid2 : String)
    (v : Option String) (h : uid2 ≠ uid) :
    dispOf (setLastAnnounced ms uid v) uid2 = dispOf ms uid2 := by
  unfold dispOf
  rw [lookup_set_other ms uid uid2 v h]

lemma lastOf_set_other (ms : List Member) (uid uid2 : String)
    (v : Option String) (h : uid2 ≠ uid) :
    lastOf (setLastAnnounced ms uid v) uid2 = lastOf ms uid2 := by
  unfold lastOf
  rw [lookup_set_other ms uid uid2 v h]

lemma newMembersLoop_spec (ids : List String) :
    ∀ (ms : List Member) (acc : List String), ids.Nodup →
    (∀ uid ∈ ids, ∃ m, tableLookup ms uid = some m ∧ m.lastAnnounced = none) →
    ∃ msOut,
      newMembersLoop ms ids acc
        = some (msOut, (ids.map (dispOf ms)).reverse ++ acc) ∧
      (∀ uid2, uid2 ∉ ids → tableLookup msOut uid2 = tableLookup ms uid2) ∧
      (∀ uid2 ∈ ids, lastOf msOut uid2 = some (dispOf ms uid2) ∧
        dispOf msOut uid2 = dispOf ms uid2) := by
  induction ids with
  | nil =>
    intro ms acc _ _
    exact ⟨ms, by simp [newMembersLoop], fun _ _ => rfl,
      fun uid2 h => absurd h (List.not_mem_nil _)⟩
  | cons uid rest ih =>
    intro ms acc hnd hex
    obtain ⟨m, hm, hml⟩ := hex uid (List.mem_cons_self _ _)
    have huid : uid ∉ rest := (List.nodup_cons.mp hnd).1
    have hnd2 : rest.Nodup := (List.nodup_cons.mp hnd).2
    have hdisp : dispOf ms uid = m.displayname := by
      unfold dispOf
      rw [hm]
    have hex2 : ∀ uid2 ∈ rest, ∃ m2,
        tableLookup (setLastAnnounced ms uid (some m.displayname)) uid2
          = some m2 ∧ m2.lastAnnounced = none := by
      intro uid2 h2
      have hne : uid2 ≠ uid := fun he => huid (he ▸ h2)
      rw [lookup_set_other ms uid uid2 _ hne]
      exact hex uid2 (List.mem_cons_of_mem _ h2)
    obtain ⟨msOut, heq, hoff, hin⟩ :=
      ih (setLastAnnounced ms uid (some m.displayname)) (m.displayname :: acc)
        hnd2 hex2
    refine ⟨msOut, ?_, ?_, ?_⟩
    · have hmap : rest.map (dispOf (setLastAnnounced ms uid (some m.displayname)))
          = rest.map (dispOf ms) := by
        apply List.map_congr_left
        intro a ha
        exact dispOf_set_other ms uid a _ (fun he => huid (he ▸ ha))
      simp only [newMembersLoop, hm, hml, heq, hmap]
      rw [List.map_cons, List.reverse_cons, List.append_assoc,
        List.singleton_append, hdisp]
    · intro uid2 h2
      have hne : uid2 ≠ uid := fun he => h2 (he ▸ List.mem_cons_self _ _)
      have hnr : uid2 ∉ rest := fun hr => h2 (List.mem_cons_of_mem _ hr)
      rw [hoff uid2 hnr, lookup_set_other ms uid uid2 _ hne]
    · intro uid2 h2
      rcases List.mem_cons.mp h2 with he | hr
      · subst he
        have hlk := hoff uid2 huid
        rw [lookup_set_self ms uid2 _, hm] at hlk
        simp only [Option.map_some'] at hlk
        constructor
        · simp [lastOf, hlk, hdisp]
        · simp [dispOf, hlk, hm]
      · have hne : uid2 ≠ uid := fun he => huid (he ▸ hr)
        obtain ⟨hl, hd⟩ := hin uid2 hr
        have hde : dispOf (setLastAnnounced ms uid (some m.displayname)) uid2
            = dispOf ms uid2 := dispOf_set_other ms uid uid2 _ hne
        rw [hde] at hl hd
        exact ⟨hl, hd⟩

lemma lastOf_congr {a b : List Member} {u : String}
    (h : tableLookup a u = tableLookup b u) : lastOf a u = lastOf b u := by
  unfold lastOf
  rw [h]

lemma dispOf_congr {a b : List Member} {u : String}
    (h : tableLookup a u = tableLookup b u) : dispOf a u = dispOf b u := by
  unfold dispOf
  rw [h]

lemma renamedMembersLoop_spec (ids : List String) :
    ∀ (ms : List Member) (acc : List UICall), ids.Nodup →
    (∀ uid ∈ ids, ∃ m c, tableLookup ms uid = some m ∧
        m.lastAnnounced = some c) →
    ∃ msOut,
      renamedMembersLoop ms ids acc
        = some (msOut, acc ++ ids.map (fun uid =>
            UICall.renameUser ((lastOf ms uid).getD "") (dispOf ms uid))) ∧
      (∀ uid2, uid2 ∉ ids → tableLookup msOut uid2 = tableLookup ms uid2) ∧
      (∀ uid2 ∈ ids, lastOf msOut uid2 = some (dispOf ms uid2)) := by
  induction ids with
  | nil =>
    intro ms acc _ _
    exact ⟨ms, by simp [renamedMembersLoop], fun _ _ => rfl,
      fun uid2 h => absurd h (List.not_mem_nil _)⟩
  | cons uid rest ih =>
    intro ms acc hnd hex
    obtain ⟨m, c, hm, hml⟩ := hex uid (List.mem_cons_self _ _)
    have huid : uid ∉ rest := (List.nodup_cons.mp hnd).1
    have hnd2 : rest.Nodup := (List.nodup_cons.mp hnd).2
    have hdisp : dispOf ms uid = m.displayname := by
      unfold dispOf
      rw [hm]
    have hlast : lastOf ms uid = some c := by
      unfold lastOf
      rw [hm]
      exact hml
    have hex2 : ∀ uid2 ∈ rest, ∃ m2 c2,
        tableLookup (setLastAnnounced ms uid (some m.displayname)) uid2
          = some m2 ∧ m2.lastAnnounced = some c2 := by
      intro uid2 h2
      have hne : uid2 ≠ uid := fun he => huid (he ▸ h2)
      rw [lookup_set_other ms uid uid2 _ hne]
      exact hex uid2 (List.mem_cons_of_mem _ h2)
    obtain ⟨msOut, heq, hoff, hin⟩ :=
      ih (setLastAnnounced ms uid (some m.displayname))
        (acc ++ [UICall.renameUser c m.displayname]) hnd2 hex2
    refine ⟨msOut, ?_, ?_, ?_⟩
    · have hmapl : rest.map (fun uid2 =>
          UICall.renameUser
            ((lastOf (setLastAnnounced ms uid (some m.displayname)) uid2).getD "")
            (dispOf (setLastAnnounced ms uid (some m.displayname)) uid2))
          = rest.map (fun uid2 =>
            UICall.renameUser ((lastOf ms uid2).getD "") (dispOf ms uid2)) := by
        apply List.map_congr_left
        intro a ha
        have hne : a ≠ uid := fun he => huid (he ▸ ha)
        rw [lastOf_set_other ms uid a _ hne, dispOf_set_other ms uid a _ hne]
      simp only [renamedMembersLoop, hm, hml, heq, hmapl, List.map_cons,
        hlast, hdisp, Option.getD_some, List.append_assoc,
        List.singleton_append]
    · intro uid2 h2
      have hne : uid2 ≠ uid := fun he => h2 (he ▸ List.mem_cons_self _ _)
      have hnr : uid2 ∉ rest := fun hr => h2 (List.mem_cons_of_mem _ hr)
      rw [hoff uid2 hnr, lookup_set_other ms uid uid2 _ hne]
    · intro uid2 h2
      rcases List.mem_cons.mp h2 with he | hr
      · subst he
        have hlk := hoff uid2 huid
        rw [lookup_set_self ms uid2 _, hm] at hlk
        simp only [Option.map_some'] at hlk
        simp [lastOf, hlk, hdisp]
      · have hne : uid2 ≠ uid := fun he => huid (he ▸ hr)
        have hl := hin uid2 hr
        have hde : dispOf (setLastAnnounced ms uid (some m.displayname)) uid2
            = dispOf ms uid2 := dispOf_set_other ms uid uid2 _ hne
        rw [hde] at hl
        exact hl

lemma leftMembersLoop_spec (ids : List String) :
    ∀ (ms : List Member) (acc : List UICall), ids.Nodup →
    (∀ uid ∈ ids, ∃ m c, tableLookup ms uid = some m ∧
        m.lastAnnounced = some c) →
    ∃ msOut,
      leftMembersLoop ms ids acc
        = some (msOut, acc ++ ids.map (fun uid =>
            UICall.removeUser ((lastOf ms uid).getD ""))) ∧
      (∀ uid2, uid2 ∉ ids → tableLookup msOut uid2 = tableLookup ms uid2) ∧
      (∀ uid2 ∈ ids, lastOf msOut uid2 = none) := by
  induction ids with
  | nil =>
    intro ms acc _ _
    exact ⟨ms, by simp [leftMembersLoop], fun _ _ => rfl,
      fun uid2 h => absurd h (List.not_mem_nil _)⟩
  | cons uid rest ih =>
    intro ms acc hnd hex
    obtain ⟨m, c, hm, hml⟩ := hex uid (List.mem_cons_self _ _)
    have huid : uid ∉ rest := (List.nodup_cons.mp hnd).1
    have hnd2 : rest.Nodup := (List.nodup_cons.mp hnd).2
    have hlast : lastOf ms uid = some c := by
      unfold lastOf
      rw [hm]
      exact hml
    have hex2 : ∀ uid2 ∈ rest, ∃ m2 c2,
        tableLookup (setLastAnnounced ms uid none) uid2 = some m2 ∧
          m2.lastAnnounced = some c2 := by
      intro uid2 h2
      have hne : uid2 ≠ uid := fun he => huid (he ▸ h2)
      rw [lookup_set_other ms uid uid2 _ hne]
      exact hex uid2 (List.mem_cons_of_mem _ h2)
    obtain ⟨msOut, heq, hoff, hin⟩ :=
      ih (setLastAnnounced ms uid none) (acc ++ [UICall.removeUser c])
        hnd2 hex2
    refine ⟨msOut, ?_, ?_, ?_⟩
    · have hmapl : rest.map (fun uid2 =>
          UICall.removeUser ((lastOf (setLastAnnounced ms uid none) uid2).getD ""))
          = rest.map (fun uid2 =>
            UICall.removeUser ((lastOf ms uid2).getD "")) := by
        apply List.map_congr_left
        intro a ha
        have hne : a ≠ uid := fun he => huid (he ▸ ha)
        rw [lastOf_set_other ms uid a _ hne]
      simp only [leftMembersLoop, hm, hml, heq, hmapl, List.map_cons,
        hlast, Option.getD_some, List.append_assoc, List.singleton_append]
    · intro uid2 h2
      have hne : uid2 ≠ uid := fun he => h2 (he ▸ List.mem_cons_self _ _)
      have hnr : uid2 ∉ rest := fun hr => h2 (List.mem_cons_of_mem _ hr)
      rw [hoff uid2 hnr, lookup_set_other ms uid uid2 _ hne]
    · intro uid2 h2
      rcases List.mem_cons.mp h2 with he | hr
      · subst he
        have hlk := hoff uid2 huid
        rw [lookup_set_self ms uid2 _, hm] at hlk
        simp only [Option.map_some'] at hlk
        simp [lastOf, hlk]
      · exact hin uid2 hr

/-- C5: each reconciliation pass processes arrivals, then renames, then
departures, in that strict order, and maintains the last-announced-name
lifecycle.  Every arrival requires its last-announced name unset (g_assert)
and records the current displayname; all arrivals are announced in one
batched add-users UI call carrying the announce flag (emitted only when
there are arrivals).  Every rename requires the last-announced name set,
emits one UI rename from it to the new displayname, then updates it.
Every departure requires it set, emits one UI removal, then clears it.
The hypotheses say the pending lists are duplicate-free and disjoint and
every listed member exists with the assert-required last-announced state,
which is what the member-table bookkeeping guarantees. -/
theorem C5_reconciliation (t : MemberTable) (announce : Bool)
    (hN : ∀ uid ∈ t.newMembers, ∃ m, tableLookup t.members uid = some m ∧
        m.lastAnnounced = none)
    (hR : ∀ uid ∈ t.renamedMembers, ∃ m c,
        tableLookup t.members uid = some m ∧ m.lastAnnounced = some c)
    (hL : ∀ uid ∈ t.leftMembers, ∃ m c,
        tableLookup t.members uid = some m ∧ m.lastAnnounced = some c)
    (hndN : t.newMembers.Nodup) (hndR : t.renamedMembers.Nodup)
    (hndL : t.leftMembers.Nodup)
    (hRN : ∀ uid ∈ t.renamedMembers, uid ∉ t.newMembers)
    (hLN : ∀ uid ∈ t.leftMembers, uid ∉ t.newMembers)
    (hLR : ∀ uid ∈ t.leftMembers, uid ∉ t.renamedMembers) :
    ∃ ms3 : List Member,
      update_user_list t announce
        = some (⟨ms3, [], [], []⟩,
          (if t.newMembers = [] then []
           else [UICall.addUsers
                  ((t.newMembers.map (dispOf t.members)).reverse) announce]) ++
          t.renamedMembers.map (fun uid =>
            UICall.renameUser ((lastOf t.members uid).getD "")
              (dispOf t.members uid)) ++
          t.leftMembers.map (fun uid =>
            UICall.removeUser ((lastOf t.members uid).getD ""))) ∧
      (∀ uid ∈ t.newMembers,
        lastOf ms3 uid = some (dispOf t.members uid)) ∧
      (∀ uid ∈ t.renamedMembers,
        lastOf ms3 uid = some (dispOf t.members uid)) ∧
      (∀ uid ∈ t.leftMembers, lastOf ms3 uid = none) := by
  obtain ⟨ms1, heq1, hoff1, hin1⟩ :=
    newMembersLoop_spec t.newMembers t.members [] hndN hN
  have hR1 : ∀ uid ∈ t.renamedMembers, ∃ m c,
      tableLookup ms1 uid = some m ∧ m.lastAnnounced = some c := by
    intro uid hu
    rw [hoff1 uid (hRN uid hu)]
    exact hR uid hu
  obtain ⟨ms2, heq2, hoff2, hin2⟩ :=
    renamedMembersLoop_spec t.renamedMembers ms1 [] hndR hR1
  have hL2 : ∀ uid ∈ t.leftMembers, ∃ m c,
      tableLookup ms2 uid = some m ∧ m.lastAnnounced = some c := by
    intro uid hu
    rw [hoff2 uid (hLR uid hu), hoff1 uid (hLN uid hu)]
    exact hL uid hu
  obtain ⟨ms3, heq3, hoff3, hin3⟩ :=
    leftMembersLoop_spec t.leftMembers ms2 [] hndL hL2
  refine ⟨ms3, ?_, ?_, ?_, ?_⟩
  · have hmapR : t.renamedMembers.map (fun uid =>
        UICall.renameUser ((lastOf ms1 uid).getD "") (dispOf ms1 uid))
        = t.renamedMembers.map (fun uid =>
          UICall.renameUser ((lastOf t.members uid).getD "")
            (dispOf t.members uid)) := by
      apply List.map_congr_left
      intro a ha
      rw [lastOf_congr (hoff1 a (hRN a ha)), dispOf_congr (hoff1 a (hRN a ha))]
    have hmapL : t.leftMembers.map (fun uid =>
        UICall.removeUser ((lastOf ms2 uid).getD ""))
        = t.leftMembers.map (fun uid =>
          UICall.removeUser ((lastOf t.members uid).getD "")) := by
      apply List.map_congr_left
      intro a ha
      rw [lastOf_congr (hoff2 a (hLR a ha)), lastOf_congr (hoff1 a (hLN a ha))]
    simp only [update_user_list, handle_new_members, handle_renamed_members,
      handle_left_members, heq1, heq2, heq3, List.append_nil,
      List.nil_append, hmapR, hmapL]
    by_cases hemp : t.newMembers = []
    · simp [hemp]
    · rw [if_neg (by simp [hemp]), if_neg hemp]
  · intro uid hu
    have hnr : uid ∉ t.renamedMembers := fun hr => hRN uid hr hu
    have hnl : uid ∉ t.leftMembers := fun hl => hLN uid hl hu
    rw [lastOf_congr (hoff3 uid hnl), lastOf_congr (hoff2 uid hnr)]
    exact (hin1 uid hu).1
  · intro uid hu
    have hnl : uid ∉ t.leftMembers := fun hl => hLR uid hl hu
    rw [lastOf_congr (hoff3 uid hnl), hin2 uid hu,
      dispOf_congr (hoff1 uid (hRN uid hu))]
  · intro uid hu
    exact hin3 uid hu

/-- Witness for C5: one arrival X, one rename Y renamed from Yold, one
departure Z last announced as Zo; the pass emits exactly the batched add,
the rename, and the removal, in that order. -/
theorem C5_reconciliation_witness :
    (∀ uid ∈ ["@x"], ∃ m, tableLookup
        [⟨"@x", "X", none⟩, ⟨"@y", "Y", some "Yold"⟩, ⟨"@z", "Z", some "Zo"⟩]
        uid = some m ∧ m.lastAnnounced = none) ∧
    ∃ ms3 : List Member,
      update_user_list
        ⟨[⟨"@x", "X", none⟩, ⟨"@y", "Y", some "Yold"⟩, ⟨"@z", "Z", some "Zo"⟩],
         ["@x"], ["@y"], ["@z"]⟩ true
      = some (⟨ms3, [], [], []⟩,
          [UICall.addUsers ["X"] true, UICall.renameUser "Yold" "Y",
           UICall.removeUser "Zo"]) := by
  constructor
  · intro uid hu
    have : uid = "@x" := by simpa using hu
    subst this
    exact ⟨⟨"@x", "X", none⟩, rfl, rfl⟩
  · obtain ⟨ms3, heq, _, _, _⟩ := C5_reconciliation
      ⟨[⟨"@x", "X", none⟩, ⟨"@y", "Y", some "Yold"⟩, ⟨"@z", "Z", some "Zo"⟩],
       ["@x"], ["@y"], ["@z"]⟩ true
      (by
        intro uid hu
        have : uid = "@x" := by simpa using hu
        subst this
        exact ⟨⟨"@x", "X", none⟩, rfl, rfl⟩)
      (by
        intro uid hu
        have : uid = "@y" := by simpa using hu
        subst this
        exact ⟨⟨"@y", "Y", some "Yold"⟩, "Yold", rfl, rfl⟩)
      (by
        intro uid hu
        have : uid = "@z" := by simpa using hu
        subst this
        exact ⟨⟨"@z", "Z", some "Zo"⟩, "Zo", rfl, rfl⟩)
      (by decide) (by decide) (by decide)
      (by decide) (by decide) (by decide)
    refine ⟨ms3, ?_⟩
    rw [heq]
    simp only [Option.some.injEq, Prod.mk.injEq]
    exact ⟨trivial, by decide⟩

end MatrixRoom
